import Mathlib

/-!
Verification of the surf virtual-browser core (repository waveletlet/surf).

The development shallowly embeds the browser session state machine of
`src/unnamed/part_000` (the fork's value-receiver `browser/browser.go`,
importing `github.com/waveletlet/surf`), the pointer-receiver variant kept in
`src/browser/browser.go` (importing `github.com/lostinblue/surf`) where the two
differ, and the asset/download subsystem of `src/browser/assets.go`.

External collaborators (the HTTP transport `http.Client.Do`, the
`compress/gzip` and `compress/flate` decoders, goquery's document parser, and
`io.Copy`) are passed in as explicit environment values, so every definition
stays executable.  The `jar` package (State / History / headers jars) is part
of the repository but its source is not included; the History Jar operations
are modelled from the spec where noted.
-/

namespace Surf

/-- Go byte slices (`[]byte`), as lists of byte values. -/
abbrev Bytes := List Nat

/-- Errors surfaced by the browser core: the constructors of the repository's
`errors` package that the embedded code constructs, plus `external` for errors
produced by collaborators (transport, decompressors, parser). -/
inductive GoErr where
  | location (msg : String)
  | pageNotLoaded (msg : String)
  | elementNotFound (msg : String)
  | attributeNotFound (msg : String)
  | external (msg : String)
deriving DecidableEq, Repr

/-- Go `http.Header` (`map[string][]string`), modelled as an association list
with unique keys.  Canonical-key normalisation is orthogonal to every claim and
is not modelled: keys are compared verbatim. -/
abbrev Header := List (String × List String)

/-- `http.Header.Get`: first value stored under the key, or `""`. -/
def hGet (h : Header) (k : String) : String :=
  match h.lookup k with
  | some (v :: _) => v
  | some [] => ""
  | none => ""

/-- `http.Header.Set`: replace the entry under the key by the single value. -/
def hSet (h : Header) (k v : String) : Header :=
  match h with
  | [] => [(k, [v])]
  | (k', vs) :: t => if k' = k then (k, [v]) :: t else (k', vs) :: hSet t k v

/-- Go `net/url.URL` — the fields `ResolveReference` reads and writes.
`user` is the `*Userinfo` pointer (`none` = nil); `opq` embeds the Go field
named after opaqueness (a reserved word here). -/
structure URL where
  scheme   : String
  opq      : String
  user     : Option String
  host     : String
  path     : String
  rawQuery : String
  fragment : String
deriving DecidableEq, Repr

/-- The part of `http.Request` the session state machine depends on. -/
structure Request where
  method : String
  url    : URL
  header : Header
deriving DecidableEq, Repr

/-- Parsed goquery document, opaque to the state machine. -/
structure Doc where
  data : Bytes
deriving DecidableEq, Repr

/-- The part of `http.Response` the session state machine depends on.
`request` is the request the response answers (after any redirects); `body` is
the byte sequence `ioutil.ReadAll` obtains from the wire. -/
structure Response where
  statusCode : Int
  header     : Header
  request    : Request
  body       : Bytes
deriving DecidableEq, Repr

/-- `jar.State` (repository package `jar`; its source is not under `src/`).
Modelled from the spec: "State — an immutable-once-created snapshot: the issued
request descriptor, the received response descriptor (nil if the request failed
before a response was obtained), and the parsed document."  The `tag` field
models Go pointer identity: `jar.NewHistoryState` heap-allocates a fresh
`*State`, so states created by distinct allocations are distinct pointers even
when their payloads coincide. -/
structure State where
  request  : Option Request
  response : Option Response
  dom      : Option Doc
  tag      : Nat
deriving DecidableEq, Repr

/-- `jar.NewHistoryState(req, resp, dom)`, receiving its fresh pointer tag from
the allocator counter threaded through `Browser`. -/
def NewHistoryState (req : Request) (resp : Response) (dom : Doc) (tag : Nat) : State :=
  { request := some req, response := some resp, dom := some dom, tag := tag }

/-- Modelled from the spec: the History Jar (`jar.History` /
`jar.MemoryHistory`, repository code not under `src/`): "an ordered stack of
`State`, most-recent on top, with configurable maximum depth (0 = unbounded)";
interface "`Push(State)`, `Pop() → State`, `Len() → int`, `SetMax(n)` (0 =
unbounded; when exceeded, oldest entries are evicted on push)". -/
structure History where
  stack : List State
  max   : Nat
deriving DecidableEq, Repr

/-- Modelled from the spec: push onto the top of the stack; when the configured
maximum depth is exceeded the oldest entry is evicted. -/
def History.Push (h : History) (s : State) : History :=
  let st := s :: h.stack
  if h.max ≠ 0 ∧ st.length > h.max then { h with stack := st.dropLast }
  else { h with stack := st }

/-- Modelled from the spec: pop the most recent entry off the stack
(`none` when the jar is empty, where Go would return a nil pointer). -/
def History.Pop (h : History) : Option State × History :=
  (h.stack.head?, { h with stack := h.stack.tail })

/-- Modelled from the spec: `Len()` is the current depth of the jar. -/
def History.Len (h : History) : Nat := h.stack.length

/-- Browser capability attributes (`const` block of both browser files). -/
inductive Attribute where
  | SendReferer
  | MetaRefreshHandling
  | FollowRedirects
deriving DecidableEq, Repr

/-- `AttributeMap` (`map[Attribute]bool`); Go map lookup defaults to false for
missing keys, so a total boolean function is the faithful value. -/
abbrev AttributeMap := Attribute → Bool

/-- The `Browser` struct of `src/unnamed/part_000`, restricted to the fields
the navigation claims observe.  The `client`, `bookmarks` and `refresh` fields
are omitted: the refresh timer lives behind a shared pointer and never feeds
back into the fields below (part_000's `httpRequest` discards the values
returned by `preSend`/`postSend`), and bookmarks/client configuration do not
enter any claim.  `alloc` models the heap allocator handing out fresh `*State`
pointer tags. -/
structure Browser where
  state      : State
  userAgent  : String
  headers    : Header
  attributes : AttributeMap
  history    : History
  body       : Bytes
  alloc      : Nat

/-- The external effects one `httpRequest` consumes: the transport outcome
(`http.Client.Do`), `gzip.NewReader`'s header-check outcome, the result of
`ioutil.ReadAll` through each kind of reader — the bytes obtained before any
failure, plus the error if one occurred mid-stream — and goquery's
`NewDocumentFromReader`.  (`flate.NewReader` cannot fail at construction, so
only gzip has a construction outcome.) -/
structure Env where
  doResult   : Except GoErr Response
  gunzipNew  : Bytes → Option GoErr
  gunzipRead : Bytes → Bytes × Option GoErr
  inflateRead : Bytes → Bytes × Option GoErr
  plainRead  : Bytes → Bytes × Option GoErr
  parse      : Bytes → Except GoErr Doc

/-- Outcome of the decode-and-read phase of part_000's `httpRequest` (lines
803–820): `gzip.NewReader` may fail before anything is read (the body is not
touched); otherwise `ioutil.ReadAll` runs and its output is assigned to
`bow.body` *before* the error check, so a mid-stream failure still carries the
partially-read bytes. -/
inductive ReadOutcome where
  | initErr (e : GoErr)
  | readErr (sofar : Bytes) (e : GoErr)
  | ok (b : Bytes)
deriving DecidableEq, Repr

/-- The decode-and-read phase of part_000's `httpRequest` (lines 803–820):
switch on `resp.Header.Get("Content-Encoding")` — "gzip" builds a gzip reader
(whose construction may fail), "deflate" a flate reader, every other value
(the `default` case) reads `resp.Body` directly — then `ReadAll` through the
chosen reader. -/
def readBody (env : Env) (resp : Response) : ReadOutcome :=
  let enc := hGet resp.header "Content-Encoding"
  if enc = "gzip" then
    match env.gunzipNew resp.body with
    | some e => .initErr e
    | none =>
      match env.gunzipRead resp.body with
      | (b, some e) => .readErr b e
      | (b, none) => .ok b
  else if enc = "deflate" then
    match env.inflateRead resp.body with
    | (b, some e) => .readErr b e
    | (b, none) => .ok b
  else
    match env.plainRead resp.body with
    | (b, some e) => .readErr b e
    | (b, none) => .ok b

/-- The bytes-or-error summary of the decode-and-read phase: the decoded body
when the phase succeeds, the construction or read error otherwise (the
partially-read bytes of a `readErr`, which `httpRequest` still assigns to
`bow.body`, are dropped from this summary only). -/
def decodeBody (env : Env) (resp : Response) : Except GoErr Bytes :=
  match readBody env resp with
  | .initErr e => .error e
  | .readErr _ e => .error e
  | .ok b => .ok b

/-- `preSend` (part_000): stops the shared refresh timer.  The timer lives
behind a pointer outside the `Browser` fields modelled here, and `httpRequest`
discards the returned receiver copy, so the embedded value is unchanged. -/
def preSend (bow : Browser) : Browser := bow

/-- `postSend` (part_000): may arm a refresh timer goroutine.  As with
`preSend`, `httpRequest` discards the returned receiver copy; the embedded
value is unchanged. -/
def postSend (bow : Browser) : Browser := bow

/-- `httpRequest` of `src/unnamed/part_000` (lines 789–834): dispatch via the
transport, run the decode-and-read phase (`bow.body, err = ReadAll(reader)`
assigns the read bytes — partial on failure — before the error check, line
817), parse the document, push the previous state onto the history jar,
install the new state. -/
def httpRequest (env : Env) (bow : Browser) (req : Request) : Browser × Option GoErr :=
  let bow := preSend bow
  match env.doResult with
  | .error e => (bow, some e)
  | .ok resp =>
    match readBody env resp with
    | .initErr e => (bow, some e)
    | .readErr b e => ({ bow with body := b }, some e)
    | .ok b =>
      match env.parse b with
      | .error e => ({ bow with body := b }, some e)
      | .ok dom =>
        let bow2 : Browser := { bow with body := b }
        let bow3 : Browser :=
          { bow2 with
            history := bow2.history.Push bow2.state,
            state := NewHistoryState req resp dom bow2.alloc,
            alloc := bow2.alloc + 1 }
        (postSend bow3, none)

namespace BrowserGo

/-- `httpRequest` of `src/browser/browser.go` (lines 800–830, the
pointer-receiver variant): no Content-Encoding handling at all —
`ioutil.ReadAll(resp.Body)` directly (assigned to `bow.body` before the error
check), then parse, push, install.  The whole block is guarded by
`resp.Body != nil` (`hasBody`); with a nil body the function returns nil
having changed nothing. -/
def httpRequest (env : Env) (hasBody : Bool) (bow : Browser) (req : Request) :
    Browser × Option GoErr :=
  let bow := preSend bow
  match env.doResult with
  | .error e => (bow, some e)
  | .ok resp =>
    if hasBody then
      match env.plainRead resp.body with
      | (b, some e) => ({ bow with body := b }, some e)
      | (b, none) =>
        match env.parse b with
        | .error e => ({ bow with body := b }, some e)
        | .ok dom =>
          let bow2 : Browser := { bow with body := b }
          let bow3 : Browser :=
            { bow2 with
              history := bow2.history.Push bow2.state,
              state := NewHistoryState req resp dom bow2.alloc,
              alloc := bow2.alloc + 1 }
          (postSend bow3, none)
    else (bow, none)

end BrowserGo

/-- `Url` (part_000 lines 650–661): the current page URL; when the response is
nil the issued request's URL, when that is also nil, nil. -/
def Url (bow : Browser) : Option URL :=
  match bow.state.response with
  | none =>
    match bow.state.request with
    | some req => some req.url
    | none => none
  | some resp => some resp.request.url

/-- `Dom` accessor: the parsed document of the current state (the code's
`Dom()` / `Find` read `bow.state.Dom`). -/
def Dom (bow : Browser) : Option Doc := bow.state.dom

/-- `Reload` (part_000 lines 348–353): re-issue the current state's request;
fail with the page-not-loaded error when there is none. -/
def Reload (env : Env) (bow : Browser) : Browser × Option GoErr :=
  match bow.state.request with
  | some req => httpRequest env bow req
  | none => (bow, GoErr.pageNotLoaded "Cannot reload, the previous request failed.")

/-- `Back` (part_000 lines 339–345): when the history jar is deeper than one
entry, pop it and install the popped snapshot as the current state; otherwise
report failure and change nothing.  Go assigns the popped pointer directly; the
`getD` arm is unreachable under the guard. -/
def Back (bow : Browser) : Browser × Bool :=
  if bow.history.Len > 1 then
    let p := bow.history.Pop
    ({ bow with state := p.1.getD bow.state, history := p.2 }, true)
  else (bow, false)

/-- `NewBrowser` of `src/unnamed/part_003` (package surf of the fork): seed an
empty `jar.State`, a fresh memory history with the configured maximum depth,
empty default headers, and all three attributes set to the package defaults
(every one `true`).  The user agent comes from the external `agent.Create()`,
passed in here.  The seed state carries pointer tag 0, so the allocator
counter starts at 1. -/
def NewBrowser (ua : String) (maxHist : Nat) : Browser :=
  { state := { request := none, response := none, dom := none, tag := 0 }
    userAgent := ua
    headers := []
    attributes := fun a =>
      match a with
      | .SendReferer => true
      | .MetaRefreshHandling => true
      | .FollowRedirects => true
    history := { stack := [], max := maxHist }
    body := []
    alloc := 1 }

/-! ## Redirect policy (claims C3, C8) -/

/-- The upcoming redirect-hop request handed to `CheckRedirect`: its target in
`URL.String()` form plus its header map.  Go passes `*http.Request` and the
pointer-receiver variant mutates the headers in place; the embeddings return
the (possibly updated) request alongside the error. -/
structure HopReq where
  url    : String
  header : Header
deriving DecidableEq, Repr

/-- `shouldRedirect` of `src/unnamed/part_000` (lines 866–872): allow the hop
unconditionally when `FollowRedirects` is set, otherwise fail with the
location error naming the blocked target; the hop request is not touched. -/
def shouldRedirect (bow : Browser) (req : HopReq) : HopReq × Option GoErr :=
  if bow.attributes .FollowRedirects then (req, none)
  else (req, some (.location
    ("Redirects are disabled. Cannot follow '" ++ req.url ++ "'.")))

namespace BrowserGo

/-- `shouldRedirect` of `src/browser/browser.go` (lines 860–866, the
pointer-receiver variant): when `FollowRedirects` is set it first re-applies
the session's User-Agent header to the hop's request, then allows it;
otherwise it fails exactly as the part_000 variant does. -/
def shouldRedirect (bow : Browser) (req : HopReq) : HopReq × Option GoErr :=
  if bow.attributes .FollowRedirects then
    ({ req with header := hSet req.header "User-Agent" bow.userAgent }, none)
  else (req, some (.location
    ("Redirects are disabled. Cannot follow '" ++ req.url ++ "'.")))

end BrowserGo

/-- The redirect loop of `net/http.Client.Do` (external transport, spec §4.2:
"invoked by the transport on every redirect response during a single logical
request"): each redirect response consults `CheckRedirect` — part_000's
`shouldRedirect` — and the chain aborts with its error; when every hop is
allowed the final response comes back. -/
def clientDo (bow : Browser) (hops : List HopReq) (final : Response) :
    Except GoErr Response :=
  match hops with
  | [] => .ok final
  | hop :: rest =>
    match (shouldRedirect bow hop).2 with
    | some e => .error e
    | none => clientDo bow rest final

/-! ## Async download engine (claim C5) -/

/-- A download sink (`io.Writer`): its identity plus the bytes written into it
so far. -/
structure Writer where
  wid     : Nat
  content : Bytes
deriving DecidableEq, Repr

/-- Behaviour of `io.Copy(out, resp.Body)` for one download: either the whole
body is copied, or the copy stops with an error after writing `n` bytes. -/
structure CopyBehavior where
  fail : Option (Nat × GoErr)
deriving DecidableEq, Repr

/-- `io.Copy` under the chosen behaviour: returns the updated sink, the byte
count written, and the error if any. -/
def ioCopy (cb : CopyBehavior) (out : Writer) (src : Bytes) :
    Writer × Nat × Option GoErr :=
  match cb.fail with
  | none => ({ out with content := out.content ++ src }, src.length, none)
  | some (n, e) =>
    ({ out with content := out.content ++ src.take n }, min n src.length, some e)

/-- External effects of one `DownloadAsset` call: the `http.Get` outcome for
the asset's URL (an error, or a response whose `Body` may be nil), and the
`io.Copy` behaviour. -/
structure DlEnv where
  getResult : Except GoErr (Option Bytes)
  copy      : CopyBehavior

/-- `DownloadAsset` (src/browser/assets.go lines 211–226): `http.Get` the
asset's URL; on transport error return `(0, err)`; with a nil body return
`(0, nil)`; otherwise hand the body to `io.Copy` and pass its result
through (a non-2xx status is not an error at this layer). -/
def DownloadAsset (env : DlEnv) (asset : α) (out : Writer) :
    Writer × Nat × Option GoErr :=
  match env.getResult with
  | .error _e => (out, 0, some _e)
  | .ok none => (out, 0, none)
  | .ok (some body) => ioCopy env.copy out body

/-- `AsyncDownloadResult` (src/browser/assets.go lines 26–39). `writer`
records the destination sink by identity. -/
structure AsyncDownloadResult (α : Type) where
  asset  : α
  writer : Nat
  size   : Nat
  error  : Option GoErr
deriving DecidableEq, Repr

/-- `DownloadAssetAsync` (src/browser/assets.go lines 230–241): the goroutine
body.  It builds `results := &AsyncDownloadResult{Asset: asset, Writer: out}`,
runs `DownloadAsset`, sets `Error` on failure and `Size` only on success (the
zero value stays otherwise), and sends the single value on the channel —
modelled as appending to the channel's delivered list. -/
def DownloadAssetAsync (env : DlEnv) (asset : α) (out : Writer)
    (c : List (AsyncDownloadResult α)) :
    Writer × List (AsyncDownloadResult α) :=
  let r := DownloadAsset env asset out
  let results : AsyncDownloadResult α :=
    match r.2.2 with
    | some e => { asset := asset, writer := out.wid, size := 0, error := some e }
    | none   => { asset := asset, writer := out.wid, size := r.2.1, error := none }
  (r.1, c ++ [results])

/-! ## Request builder (claim C7)

Go header maps are reference values, so the copy-vs-alias behaviour of
`buildRequest` is observable only through a heap: header maps live in a store
and are addressed by index. -/

/-- Heap of `http.Header` maps. -/
structure HStore where
  maps : List Header
deriving DecidableEq, Repr

/-- Dereference a header map (out-of-range reads give the empty map; valid
sessions only hold live references). -/
def HStore.read (st : HStore) (r : Nat) : Header := (st.maps.get? r).getD []

/-- Overwrite the map behind a reference. -/
def HStore.write (st : HStore) (r : Nat) (h : Header) : HStore :=
  { maps := st.maps.set r h }

/-- Allocate a fresh map (`make(http.Header, …)`), returning its reference. -/
def HStore.allocMap (st : HStore) (h : Header) : HStore × Nat :=
  ({ maps := st.maps ++ [h] }, st.maps.length)

/-- `copyHeaders` (part_000 lines 718–727 / browser.go lines 752–761):
allocate a new map holding the same entries.  (The Go code shares the value
slices between the two maps; `Set` replaces a slice wholesale, so that sharing
is unobservable to `buildRequest`.)  The nil-map branch does not arise for a
session, whose headers jar is always allocated. -/
def copyHeaders (st : HStore) (src : Nat) : HStore × Nat :=
  st.allocMap (st.read src)

/-- The session fields `buildRequest` reads: the default-headers reference,
the user agent, and the `SendReferer` attribute. -/
structure BuilderSession where
  headers     : Nat
  userAgent   : String
  sendReferer : Bool
deriving DecidableEq, Repr

/-- The request descriptor `buildRequest` produces; `header` is a reference
into the header store. -/
structure BuiltReq where
  method : String
  url    : String
  host   : String
  header : Nat
deriving DecidableEq, Repr

/-- `buildRequest` (part_000 lines 696–716 / browser.go lines 730–750):
`http.NewRequest`, then `req.Header = copyHeaders(bow.headers)`, promotion of
a `Host` default header, `Set("User-Agent", …)`, and `Set("Referer", …)` when
`SendReferer` is set and a referer was supplied.  URL parsing by
`http.NewRequest` succeeds for the inputs considered here; the referer enters
in its `String()` form. -/
def buildRequest (st : HStore) (bow : BuilderSession) (method u : String)
    (ref : Option String) : HStore × BuiltReq :=
  let a := copyHeaders st bow.headers
  let st1 := a.1
  let r2 := a.2
  let host := hGet (st1.read r2) "Host"
  let st2 := st1.write r2 (hSet (st1.read r2) "User-Agent" bow.userAgent)
  let st3 :=
    if bow.sendReferer then
      match ref with
      | some rf => st2.write r2 (hSet (st2.read r2) "Referer" rf)
      | none => st2
    else st2
  (st3, { method := method, url := u, host := host, header := r2 })

/-! ## URL resolution (claim C9)

`ResolveUrl` delegates to `net/url.URL.ResolveReference`; the stdlib routine
(Go 1.10 `net/url`) is embedded below so the claim is about what the program
actually computes.  Strings are manipulated as character lists. -/

/-- `strings.TrimPrefix(s, "/")` on a character list. -/
def dropLeadSlash (l : List Char) : List Char :=
  if l.head? = some '/' then l.tail else l

/-- `base[:strings.LastIndex(base, "/")+1]`: the prefix of `base` through its
last slash; empty when `base` contains no slash. -/
def dirPart (l : List Char) : List Char :=
  (l.reverse.dropWhile (fun c => c ≠ '/')).reverse

/-- One iteration of `resolvePath`'s segment loop: drop `"."`, pop on `".."`,
append any other segment. -/
def segStep (d : List (List Char)) (e : List Char) : List (List Char) :=
  if e = ['.'] then d
  else if e = ['.', '.'] then d.dropLast
  else d ++ [e]

/-- The segment loop of `resolvePath` (Go 1.10 `net/url`): fold `segStep` over
the split segments, then append an empty segment when the source ended in a
dot segment (Go's "add final slash to the joined path"). -/
def cleanSegs (src : List (List Char)) : List (List Char) :=
  let dst := src.foldl segStep []
  if src.getLast? = some ['.'] ∨ src.getLast? = some ['.', '.']
  then dst ++ [[]] else dst

/-- The dot-segment removal phase of `resolvePath` (Go 1.10 `net/url`) on the
merged path: split on `/`, clean the segments, and re-join as
`"/" + strings.TrimPrefix(strings.Join(dst, "/"), "/")`. -/
def cleanPath (full : List Char) : List Char :=
  if full = [] then []
  else '/' :: dropLeadSlash (List.intercalate ['/'] (cleanSegs (full.splitOn '/')))

/-- `resolvePath(base, ref)` of Go 1.10 `net/url`, on character lists: merge
`ref` into `base` (verbatim when absolute, onto `base`'s directory otherwise)
and clean the result. -/
def resolvePathL (base ref : List Char) : List Char :=
  cleanPath
    (if ref = [] then base
     else if ref.head? = some '/' then ref
     else dirPart base ++ ref)

/-- `resolvePath` on Lean strings. -/
def resolvePath (base ref : String) : String :=
  ⟨resolvePathL base.data ref.data⟩

/-- `URL.ResolveReference(ref)` of Go 1.10 `net/url` (the function
`bow.Url().ResolveReference(u)` runs).  `EscapedPath`/`setPath` round through
percent-escaping, which is orthogonal here: the path travels verbatim. -/
def resolveReference (u ref : URL) : URL :=
  let url1 := if ref.scheme = "" then { ref with scheme := u.scheme } else ref
  if ref.scheme ≠ "" ∨ ref.host ≠ "" ∨ ref.user ≠ none then
    { url1 with path := resolvePath ref.path "" }
  else if ref.opq ≠ "" then
    { url1 with user := none, host := "", path := "" }
  else
    let url2 :=
      if ref.path = "" ∧ ref.rawQuery = "" then
        let url2a := { url1 with rawQuery := u.rawQuery }
        if ref.fragment = "" then { url2a with fragment := u.fragment } else url2a
      else url1
    { url2 with host := u.host, user := u.user, path := resolvePath u.path ref.path }

/-- `ResolveUrl` (part_000 lines 625–628 / browser.go `ResolveURL` lines
622–625): `bow.Url().ResolveReference(u)`; `none` when there is no current
URL, where the Go code would dereference a nil pointer. -/
def ResolveUrl (bow : Browser) (u : URL) : Option URL :=
  (Url bow).map (fun b => resolveReference b u)

/-! ## Asset extraction defaults (claim C10) -/

/-- A goquery element: its attribute list; `Attr` takes the first occurrence,
as goquery does. -/
abbrev Element := List (String × String)

/-- `goquery.Selection.Attr`: the value and whether the attribute exists. -/
def Attr (s : Element) (name : String) : Option String := s.lookup name

/-- `attrOrDefault` (part_000 lines 890–896 / browser.go lines 883–889): the
attribute's value whenever the attribute exists — including when the value is
the empty string — and the default only when the attribute is absent. -/
def attrOrDefault (name d : String) (s : Element) : String :=
  match Attr s name with
  | some a => a
  | none => d

/-- Stylesheet asset descriptor (src/browser/assets.go lines 161–185). -/
structure Stylesheet where
  url   : String
  ID    : String
  media : String
  typ   : String
deriving DecidableEq, Repr

/-- `NewStylesheetAsset` (src/browser/assets.go lines 172–185). -/
def NewStylesheetAsset (url id media typ : String) : Stylesheet :=
  { url := url, ID := id, media := media, typ := typ }

/-- `Stylesheets` (part_000 lines 452–470 / browser.go same): walk the
document's `link` elements in order; keep those whose `rel` attribute exists
and equals `"stylesheet"` and whose `href` resolves (`attrToResolvedUrl`;
absent or unparsable hrefs are skipped silently); build each descriptor with
the per-kind attribute defaults.  `resolveHref` stands for
`url.Parse` + `ResolveUrl` (`none` = skip). -/
def Stylesheets (doc : List Element) (resolveHref : String → Option String) :
    List Stylesheet :=
  doc.foldl
    (fun acc s =>
      match Attr s "rel" with
      | some rel =>
        if rel = "stylesheet" then
          match Attr s "href" with
          | some href =>
            match resolveHref href with
            | some u =>
              acc ++ [NewStylesheetAsset u (attrOrDefault "id" "" s)
                        (attrOrDefault "media" "all" s)
                        (attrOrDefault "type" "text/css" s)]
            | none => acc
          | none => acc
        else acc
      | none => acc)
    []

/-! ## Navigation iteration (claim C4) -/

/-- The error `httpRequest` will report, as a function of the environment
alone (the outcome does not depend on the session). -/
def navOutcome (env : Env) : Option GoErr :=
  match env.doResult with
  | .error e => some e
  | .ok resp =>
    match decodeBody env resp with
    | .error e => some e
    | .ok b =>
      match env.parse b with
      | .error e => some e
      | .ok _ => none

/-- The session after `k` navigations from a fresh `NewBrowser` session, the
`i`-th navigation dispatching request `reqs i` under environment `envs i`. -/
def navK (ua : String) (m : Nat) (envs : Nat → Env) (reqs : Nat → Request) :
    Nat → Browser
  | 0 => NewBrowser ua m
  | k + 1 => (httpRequest (envs k) (navK ua m envs reqs k) (reqs k)).1

/-! ## Concrete fixtures for witnesses and counterexamples -/

/-- A loaded page URL. -/
def url0 : URL :=
  { scheme := "http", opq := "", user := none, host := "example.com"
    path := "/", rawQuery := "", fragment := "" }

/-- A GET request for `url0`. -/
def req0 : Request := { method := "GET", url := url0, header := [] }

/-- An empty parsed document. -/
def doc0 : Doc := ⟨[]⟩

/-- A plain 200 response to `req0`. -/
def resp0 : Response :=
  { statusCode := 200, header := [], request := req0, body := [1, 2] }

/-- A fresh session. -/
def bow0 : Browser := NewBrowser "TestAgent" 0

/-- A bare state snapshot with pointer tag `n`. -/
def stA (n : Nat) : State :=
  { request := none, response := none, dom := none, tag := n }

/-- A session whose history jar holds two prior snapshots. -/
def bowH2 : Browser :=
  { bow0 with state := stA 9
              history := { stack := [stA 5, stA 3], max := 0 }
              alloc := 10 }

/-- A session already on `url0` (response present). -/
def bowLoaded : Browser :=
  { bow0 with
    state := { request := some req0, response := some resp0
               dom := some doc0, tag := 1 }
    alloc := 2 }

/-- An environment whose transport dispatch fails. -/
def envFail : Env :=
  { doResult := .error (.external "connection refused")
    gunzipNew := fun _ => some (.external "gzip: bad header")
    gunzipRead := fun _ => ([], some (.external "gzip: bad header"))
    inflateRead := fun _ => ([], some (.external "flate: corrupt input"))
    plainRead := fun b => (b, none)
    parse := fun b => .ok ⟨b⟩ }

/-- A response declaring the unsupported `Content-Encoding: br`. -/
def respBr : Response :=
  { statusCode := 200, header := [("Content-Encoding", ["br"])]
    request := req0, body := [7] }

/-- An environment delivering `respBr`; both decoders would fail if consulted,
the plain read returns the wire bytes, and parsing accepts any bytes. -/
def envBr : Env :=
  { doResult := .ok respBr
    gunzipNew := fun _ => some (.external "gzip: bad header")
    gunzipRead := fun _ => ([], some (.external "gzip: bad header"))
    inflateRead := fun _ => ([], some (.external "flate: corrupt input"))
    plainRead := fun b => (b, none)
    parse := fun b => .ok ⟨b⟩ }

/-- A gzip-encoded response. -/
def respGz : Response :=
  { statusCode := 200, header := [("Content-Encoding", ["gzip"])]
    request := req0, body := [31, 139, 8] }

/-- An environment delivering `respGz` whose gzip reader decompresses the body
to `[104, 105]`. -/
def envGz : Env :=
  { doResult := .ok respGz
    gunzipNew := fun _ => none
    gunzipRead := fun _ => ([104, 105], none)
    inflateRead := fun _ => ([], some (.external "flate: corrupt input"))
    plainRead := fun b => (b, none)
    parse := fun b => .ok ⟨b⟩ }

/-- An always-succeeding environment family for iterated navigation: the
`i`-th response carries no content encoding and body `[i]`. -/
def envsOk : Nat → Env := fun i =>
  { doResult := .ok { statusCode := 200, header := [], request := req0
                      body := [i] }
    gunzipNew := fun _ => some (.external "gzip: bad header")
    gunzipRead := fun _ => ([], some (.external "gzip: bad header"))
    inflateRead := fun _ => ([], some (.external "flate: corrupt input"))
    plainRead := fun b => (b, none)
    parse := fun b => .ok ⟨b⟩ }

/-- A session with redirects disabled (the other attributes stay on). -/
def bowNoFollow : Browser :=
  { bow0 with attributes := fun a =>
      match a with
      | .FollowRedirects => false
      | _ => true }

/-- A redirect hop towards `http://b/`. -/
def hop0 : HopReq := { url := "http://b/", header := [] }

/-- A redirect hop whose request still carries a stale User-Agent header. -/
def hopUA : HopReq := { url := "http://b/", header := [("User-Agent", ["stale"])] }

/-- An empty sink with identity 4. -/
def wr0 : Writer := { wid := 4, content := [] }

/-- A download whose copy fails after writing 5 of 8 body bytes. -/
def dlPartialEnv : DlEnv :=
  { getResult := .ok (some [1, 2, 3, 4, 5, 6, 7, 8])
    copy := { fail := some (5, .external "disk full") } }

/-- A download that succeeds, copying 3 bytes. -/
def dlOkEnv : DlEnv :=
  { getResult := .ok (some [10, 11, 12]), copy := { fail := none } }

/-- A header store holding one session header map (reference 0). -/
def store0 : HStore := { maps := [[("Accept", ["text/html"])]] }

/-- A builder session over `store0` with `SendReferer` on. -/
def bs0 : BuilderSession := { headers := 0, userAgent := "UA7", sendReferer := true }

/-- A relative URL (`a/b`). -/
def uRel : URL :=
  { scheme := "", opq := "", user := none, host := ""
    path := "a/b", rawQuery := "", fragment := "" }

/-- A `link` element whose `media` attribute is present but empty. -/
def elCss : Element :=
  [("rel", "stylesheet"), ("href", "x.css"), ("media", "")]

/-! ## Helper lemmas -/

theorem hGet_hSet (h : Header) (k v : String) : hGet (hSet h k v) k = v := by
  induction h with
  | nil => simp [hSet, hGet, List.lookup]
  | cons p t ih =>
    by_cases hk : p.1 = k
    · simp [hSet, hk, hGet, List.lookup]
    · have hb : (k == p.1) = false := beq_eq_false_iff_ne.mpr (Ne.symm hk)
      simpa [hSet, hk, hGet, List.lookup, hb] using ih

theorem hGet_hSet_ne (h : Header) (k v k' : String) (hne : k' ≠ k) :
    hGet (hSet h k v) k' = hGet h k' := by
  have hbk : (k' == k) = false := beq_eq_false_iff_ne.mpr hne
  induction h with
  | nil => simp [hSet, hGet, List.lookup, hbk]
  | cons p t ih =>
    by_cases hk : p.1 = k
    · subst hk
      simp [hSet, hGet, List.lookup, hbk]
    · by_cases hk' : (k' == p.1) = true
      · simp [hSet, hk, hGet, List.lookup, hk']
      · have hb2 : (k' == p.1) = false := by simpa using hk'
        simpa [hSet, hk, hGet, List.lookup, hb2] using ih

/-! ## Claim C1 -/

/-- Claim C1: for every navigation operation (Open/GET/POST/Reload/Click — in
the source all of them dispatch through part_000's `httpRequest`), if the
transport (`client.Do`) returns an error, the session is returned exactly as
it was, so `Url` (CurrentURL) and `Dom` (Document) are unchanged; `Reload`
behaves the same whenever the current state has a request.  Navigation is
all-or-nothing on transport failure. -/
theorem C1_transport_failure_all_or_nothing
    (env : Env) (bow : Browser) (req : Request) (e : GoErr)
    (h : env.doResult = .error e) :
    httpRequest env bow req = (bow, some e) ∧
    Url (httpRequest env bow req).1 = Url bow ∧
    Dom (httpRequest env bow req).1 = Dom bow ∧
    (∀ r, bow.state.request = some r → Reload env bow = (bow, some e)) := by
  have hh : httpRequest env bow req = (bow, some e) := by
    simp [httpRequest, preSend, h]
  refine ⟨hh, by rw [hh], by rw [hh], ?_⟩
  intro r hr
  simp [Reload, hr, httpRequest, preSend, h]

/-- Witness for C1 at a concrete failing transport. -/
theorem C1_transport_failure_all_or_nothing_witness :
    httpRequest envFail bow0 req0 = (bow0, some (.external "connection refused")) :=
  (C1_transport_failure_all_or_nothing envFail bow0 req0
    (.external "connection refused") rfl).1

/-! ## Claim C6 -/

/-- Claim C6: `Back` succeeds exactly when the History Jar depth exceeds 1; on
success it pops the jar and installs the popped snapshot as the current state
(its embedding consumes no transport environment, so no network request is
involved); at depth ≤ 1 it returns false and leaves the session unchanged. -/
theorem C6_Back_pops_iff_depth_gt_one (bow : Browser) :
    ((Back bow).2 = true ↔ bow.history.Len > 1) ∧
    (∀ s rest, bow.history.stack = s :: rest → bow.history.Len > 1 →
      Back bow = ({ bow with state := s
                             history := { bow.history with stack := rest } }, true)) ∧
    (¬ bow.history.Len > 1 → Back bow = (bow, false)) := by
  refine ⟨⟨?_, ?_⟩, ?_, ?_⟩
  · intro hb
    by_contra hlen
    simp [Back, hlen] at hb
  · intro hlen
    simp [Back, hlen]
  · intro s rest hst hlen
    simp [Back, hlen, History.Pop, hst]
  · intro hlen
    simp [Back, hlen]

/-- Witness for C6 on a session with two history entries. -/
theorem C6_Back_pops_iff_depth_gt_one_witness :
    Back bowH2 =
      ({ bowH2 with state := stA 5, history := { stack := [stA 3], max := 0 } },
        true) :=
  (C6_Back_pops_iff_depth_gt_one bowH2).2.1 (stA 5) [stA 3] rfl (by decide)

/-! ## Claim C3 -/

/-- Claim C3: during a single navigation, every redirect hop is allowed
unconditionally while `FollowRedirects` is set; with it cleared the check
fails with the location error naming the blocked target URL, the chain aborts
at that hop, and (third clause) an error coming back from the transport
dispatch surfaces to the navigation's caller with the session unchanged. -/
theorem C3_redirect_policy (bow : Browser) :
    (bow.attributes .FollowRedirects = true →
       ∀ hops final, clientDo bow hops final = .ok final) ∧
    (bow.attributes .FollowRedirects = false →
       ∀ hop rest final,
         clientDo bow (hop :: rest) final =
           .error (.location
             ("Redirects are disabled. Cannot follow '" ++ hop.url ++ "'."))) ∧
    (∀ env (req : Request) e, env.doResult = .error e →
       (httpRequest env bow req).2 = some e ∧
       (httpRequest env bow req).1 = bow) := by
  refine ⟨?_, ?_, ?_⟩
  · intro hf hops final
    induction hops with
    | nil => rfl
    | cons hop rest ih => simpa [clientDo, shouldRedirect, hf] using ih
  · intro hf hop rest final
    simp [clientDo, shouldRedirect, hf]
  · intro env req e h
    simp [httpRequest, preSend, h]

/-- Witness for C3: with redirects on, a two-hop chain completes; with them
off, the first hop is blocked with the error naming its URL. -/
theorem C3_redirect_policy_witness :
    clientDo bow0 [hop0, hopUA] resp0 = .ok resp0 ∧
    clientDo bowNoFollow [hop0] resp0 =
      .error (.location "Redirects are disabled. Cannot follow 'http://b/'.") :=
  ⟨(C3_redirect_policy bow0).1 rfl [hop0, hopUA] resp0,
   (C3_redirect_policy bowNoFollow).2.1 rfl hop0 [] resp0⟩

/-! ## Claim C8 -/

/-- Claim C8 counterexample: the claim says the redirect policy re-applies the
session's User-Agent on every followed hop, but part_000's `shouldRedirect`
allows the hop without touching its headers: after the check the hop still
carries its stale User-Agent, not the session's. -/
theorem C8_counterexample :
    (shouldRedirect bow0 hopUA).2 = none ∧
    (shouldRedirect bow0 hopUA).1 = hopUA ∧
    hGet (shouldRedirect bow0 hopUA).1.header "User-Agent" = "stale" ∧
    bow0.userAgent = "TestAgent" :=
  ⟨rfl, rfl, rfl, rfl⟩

/-- Claim C8 (amended): only the pointer-receiver variant
(`src/browser/browser.go`) re-applies the session's User-Agent to every
followed hop; the part_000 variant allows the hop with its request
unmodified. -/
theorem C8_user_agent_on_redirect (bow : Browser) (req : HopReq)
    (h : bow.attributes .FollowRedirects = true) :
    BrowserGo.shouldRedirect bow req =
      ({ req with header := hSet req.header "User-Agent" bow.userAgent }, none) ∧
    hGet (BrowserGo.shouldRedirect bow req).1.header "User-Agent" = bow.userAgent ∧
    shouldRedirect bow req = (req, none) := by
  refine ⟨by simp [BrowserGo.shouldRedirect, h], ?_, by simp [shouldRedirect, h]⟩
  simp [BrowserGo.shouldRedirect, h, hGet_hSet]

/-- Witness for C8 (amended) on a hop carrying a stale User-Agent. -/
theorem C8_user_agent_on_redirect_witness :
    BrowserGo.shouldRedirect bow0 hopUA =
      ({ hopUA with header := [("User-Agent", ["TestAgent"])] }, none) :=
  (C8_user_agent_on_redirect bow0 hopUA rfl).1

/-! ## Claim C5 -/

/-- Claim C5 counterexample: a download whose `io.Copy` fails after writing 5
bytes delivers a result with `Error` set whose `Size` is 0 — it does not
reflect the 5 bytes already written to the sink, contradicting the claim. -/
theorem C5_counterexample :
    (DownloadAssetAsync dlPartialEnv "asset" wr0 []).2 =
      [{ asset := "asset", writer := 4, size := 0
         error := some (.external "disk full") }] ∧
    (DownloadAssetAsync dlPartialEnv "asset" wr0 []).1.content = [1, 2, 3, 4, 5] ∧
    (0 : Nat) ≠ 5 :=
  ⟨rfl, rfl, by decide⟩

/-- Claim C5 (amended): every `DownloadAssetAsync` call delivers exactly one
result to the channel; the result carries the originating asset and the
destination sink; on success its `Size` is the byte count copied to the sink;
on failure `Error` is set and `Size` is 0 — the bytes written before the
failure are not reported. -/
theorem C5_async_download_result {α : Type} (env : DlEnv) (asset : α)
    (out : Writer) (c : List (AsyncDownloadResult α)) :
    ∃ res, (DownloadAssetAsync env asset out c).2 = c ++ [res] ∧
      res.asset = asset ∧ res.writer = out.wid ∧
      (res.error = none →
        res.size = (DownloadAsset env asset out).2.1 ∧
        (DownloadAssetAsync env asset out c).1.content.length
          = out.content.length + res.size) ∧
      (∀ e, res.error = some e → res.size = 0) := by
  rcases hg : env.getResult with e | body
  · refine ⟨{ asset := asset, writer := out.wid, size := 0, error := some e },
      ?_, rfl, rfl, ?_, ?_⟩
    · simp [DownloadAssetAsync, DownloadAsset, hg]
    · intro h
      simp at h
    · intro _ _
      rfl
  · rcases body with _ | body
    · refine ⟨{ asset := asset, writer := out.wid, size := 0, error := none },
        ?_, rfl, rfl, ?_, ?_⟩
      · simp [DownloadAssetAsync, DownloadAsset, hg]
      · intro _
        refine ⟨by simp [DownloadAsset, hg], ?_⟩
        simp [DownloadAssetAsync, DownloadAsset, hg]
      · intro e h
        simp at h
    · rcases hc : env.copy.fail with _ | p
      · refine ⟨{ asset := asset, writer := out.wid, size := body.length
                  error := none }, ?_, rfl, rfl, ?_, ?_⟩
        · simp [DownloadAssetAsync, DownloadAsset, ioCopy, hg, hc]
        · intro _
          refine ⟨by simp [DownloadAsset, ioCopy, hg, hc], ?_⟩
          simp [DownloadAssetAsync, DownloadAsset, ioCopy, hg, hc]
        · intro e h
          simp at h
      · refine ⟨{ asset := asset, writer := out.wid, size := 0
                  error := some p.2 }, ?_, rfl, rfl, ?_, ?_⟩
        · simp [DownloadAssetAsync, DownloadAsset, ioCopy, hg, hc]
        · intro h
          simp at h
        · intro _ _
          rfl

/-! ## Claim C10 -/

/-- Claim C10: in asset extraction, the per-kind defaults apply only when the
attribute is entirely absent: `attrOrDefault` returns the attribute's value
verbatim whenever it is present — even when that value is the empty string —
and the default only when it is absent; `Stylesheets` builds its descriptors
through exactly these calls with the per-kind defaults. -/
theorem C10_defaults_only_when_absent (s : Element) (name d : String) :
    (∀ v, Attr s name = some v → attrOrDefault name d s = v) ∧
    (Attr s name = none → attrOrDefault name d s = d) ∧
    (∀ (resolveHref : String → Option String) href u,
       Attr s "rel" = some "stylesheet" → Attr s "href" = some href →
       resolveHref href = some u →
       Stylesheets [s] resolveHref =
         [NewStylesheetAsset u (attrOrDefault "id" "" s)
            (attrOrDefault "media" "all" s) (attrOrDefault "type" "text/css" s)]) := by
  refine ⟨?_, ?_, ?_⟩
  · intro v hv
    simp [attrOrDefault, hv]
  · intro hv
    simp [attrOrDefault, hv]
  · intro resolveHref href u hrel hhref hres
    simp [Stylesheets, hrel, hhref, hres]

/-! ## Navigation lemmas (for claim C4) -/

theorem decodeBody_ok_iff (env : Env) (resp : Response) (b : Bytes) :
    decodeBody env resp = .ok b ↔ readBody env resp = .ok b := by
  unfold decodeBody
  rcases hrb : readBody env resp with e | ⟨p, e⟩ | b' <;> simp

theorem httpRequest_snd (env : Env) (bow : Browser) (req : Request) :
    (httpRequest env bow req).2 = navOutcome env := by
  rcases hdo : env.doResult with e | resp
  · simp [httpRequest, navOutcome, preSend, hdo]
  · rcases hrb : readBody env resp with e | ⟨p, e⟩ | b
    · simp [httpRequest, navOutcome, decodeBody, preSend, hdo, hrb]
    · simp [httpRequest, navOutcome, decodeBody, preSend, hdo, hrb]
    · rcases hp : env.parse b with e | dom
      · simp [httpRequest, navOutcome, decodeBody, preSend, postSend, hdo, hrb, hp]
      · simp [httpRequest, navOutcome, decodeBody, preSend, postSend, hdo, hrb, hp]

theorem navOutcome_none (env : Env) (h : navOutcome env = none) :
    ∃ resp b dom, env.doResult = .ok resp ∧ decodeBody env resp = .ok b ∧
      env.parse b = .ok dom := by
  unfold navOutcome at h
  rcases hdo : env.doResult with e | resp
  · rw [hdo] at h
    simp at h
  · rw [hdo] at h
    simp only at h
    rcases hdec : decodeBody env resp with e | b
    · rw [hdec] at h
      simp at h
    · rw [hdec] at h
      simp only at h
      rcases hp : env.parse b with e | dom
      · rw [hp] at h
        simp at h
      · exact ⟨resp, b, dom, rfl, hdec, hp⟩

theorem httpRequest_success (env : Env) (bow : Browser) (req : Request)
    (resp : Response) (b : Bytes) (dom : Doc)
    (hdo : env.doResult = .ok resp) (hdec : decodeBody env resp = .ok b)
    (hp : env.parse b = .ok dom) :
    httpRequest env bow req =
      ({ bow with body := b
                  history := bow.history.Push bow.state
                  state := NewHistoryState req resp dom bow.alloc
                  alloc := bow.alloc + 1 }, none) := by
  have hrb := (decodeBody_ok_iff env resp b).mp hdec
  simp [httpRequest, preSend, postSend, hdo, hrb, hp]

theorem Push_Len (h : History) (s : State) :
    (h.Push s).Len =
      if h.max ≠ 0 ∧ h.Len + 1 > h.max then h.Len else h.Len + 1 := by
  by_cases hc : h.max ≠ 0 ∧ h.stack.length + 1 > h.max
  · have he : h.Push s = { h with stack := (s :: h.stack).dropLast } := by
      unfold History.Push
      rw [if_pos (by simpa using hc)]
    rw [he]
    simp [History.Len, hc, List.length_dropLast]
  · have he : h.Push s = { h with stack := s :: h.stack } := by
      unfold History.Push
      rw [if_neg (by simpa using hc)]
    rw [he]
    simp [History.Len, hc]

theorem Push_max (h : History) (s : State) : (h.Push s).max = h.max := by
  by_cases hc : h.max ≠ 0 ∧ (s :: h.stack).length > h.max
  · unfold History.Push
    rw [if_pos hc]
  · unfold History.Push
    rw [if_neg hc]

theorem mem_Push (h : History) (s t : State) (ht : t ∈ (h.Push s).stack) :
    t ∈ s :: h.stack := by
  unfold History.Push at ht
  by_cases hc : h.max ≠ 0 ∧ (s :: h.stack).length > h.max
  · rw [if_pos hc] at ht
    exact List.dropLast_subset _ ht
  · rw [if_neg hc] at ht
    exact ht

theorem navK_inv (ua : String) (m : Nat) (envs : Nat → Env)
    (reqs : Nat → Request) (k : Nat)
    (h : ∀ i, i < k → navOutcome (envs i) = none) :
    (navK ua m envs reqs k).history.max = m ∧
    (navK ua m envs reqs k).history.Len = (if m = 0 then k else min k m) ∧
    (navK ua m envs reqs k).state.tag < (navK ua m envs reqs k).alloc ∧
    (∀ s ∈ (navK ua m envs reqs k).history.stack,
        s.tag < (navK ua m envs reqs k).state.tag) := by
  induction k with
  | zero =>
    refine ⟨rfl, by simp [navK, NewBrowser, History.Len], by simp [navK, NewBrowser], ?_⟩
    intro s hs
    simp [navK, NewBrowser] at hs
  | succ k ih =>
    obtain ⟨ihmax, ihlen, ihtag, ihmem⟩ := ih (fun i hi => h i (by omega))
    obtain ⟨resp, b, dom, hdo, hdec, hp⟩ := navOutcome_none (envs k) (h k (by omega))
    have heq := httpRequest_success (envs k) (navK ua m envs reqs k) (reqs k)
      resp b dom hdo hdec hp
    have hstep : navK ua m envs reqs (k + 1) =
        { navK ua m envs reqs k with
          body := b
          history := (navK ua m envs reqs k).history.Push
            (navK ua m envs reqs k).state
          state := NewHistoryState (reqs k) resp dom (navK ua m envs reqs k).alloc
          alloc := (navK ua m envs reqs k).alloc + 1 } := by
      show (httpRequest (envs k) (navK ua m envs reqs k) (reqs k)).1 = _
      rw [heq]
    refine ⟨?_, ?_, ?_, ?_⟩
    · rw [hstep]
      simpa [Push_max] using ihmax
    · rw [hstep]
      show ((navK ua m envs reqs k).history.Push _).Len = _
      rw [Push_Len, ihlen, ihmax]
      by_cases hm : m = 0
      · simp [hm]
      · simp only [hm, if_false, ne_eq, not_false_iff, true_and]
        rcases Nat.lt_or_ge k m with hk | hk
        · rw [if_neg (by omega), Nat.min_eq_left (by omega),
            Nat.min_eq_left (by omega)]
        · rw [if_pos (by rw [Nat.min_eq_right hk]; omega),
            Nat.min_eq_right hk, Nat.min_eq_right (by omega)]
    · rw [hstep]
      simp [NewHistoryState]
    · rw [hstep]
      intro s hs
      simp only at hs
      have := mem_Push _ _ _ hs
      rcases List.mem_cons.mp this with hcur | hold
      · subst hcur
        simpa [NewHistoryState] using ihtag
      · have := ihmem s hold
        simp [NewHistoryState]
        omega

/-! ## Claim C4 -/

/-- Claim C4: on every successful navigation the prior state is pushed onto
the History Jar before the new state — a freshly allocated snapshot — is
installed as current (third clause), so the jar never contains the current
state (second clause); and after `k` successful navigations from a fresh
session, `History.Len()` equals `min(k, maxDepth)`, or `k` itself when the
depth `m = 0` is unbounded (first clause). -/
theorem C4_history_trail (ua : String) (m k : Nat) (envs : Nat → Env)
    (reqs : Nat → Request)
    (h : ∀ i, i < k → navOutcome (envs i) = none) :
    ((navK ua m envs reqs k).history.Len = if m = 0 then k else min k m) ∧
    (∀ s ∈ (navK ua m envs reqs k).history.stack,
        s ≠ (navK ua m envs reqs k).state) ∧
    (∀ env bow req resp b dom,
       env.doResult = .ok resp → decodeBody env resp = .ok b →
       env.parse b = .ok dom →
       (httpRequest env bow req).1.history = bow.history.Push bow.state ∧
       (httpRequest env bow req).1.state = NewHistoryState req resp dom bow.alloc ∧
       (httpRequest env bow req).2 = none) := by
  obtain ⟨hmax, hlen, htag, hmem⟩ := navK_inv ua m envs reqs k h
  refine ⟨hlen, ?_, ?_⟩
  · intro s hs heq
    have := hmem s hs
    rw [heq] at this
    omega
  · intro env bow req resp b dom hdo hdec hp
    have he := httpRequest_success env bow req resp b dom hdo hdec hp
    rw [he]
    exact ⟨rfl, rfl, rfl⟩

/-- Witness for C4: three successful navigations on an unbounded jar leave
exactly three prior snapshots, none of them the current state. -/
theorem C4_history_trail_witness :
    (navK "TestAgent" 0 envsOk (fun _ => req0) 3).history.Len = 3 ∧
    (∀ s ∈ (navK "TestAgent" 0 envsOk (fun _ => req0) 3).history.stack,
        s ≠ (navK "TestAgent" 0 envsOk (fun _ => req0) 3).state) := by
  have h3 := C4_history_trail "TestAgent" 0 3 envsOk (fun _ => req0)
    (fun i _ => rfl)
  exact ⟨by simpa using h3.1, h3.2.1⟩

/-! ## Header-store lemmas (for claim C7) -/

theorem HStore.read_write_ne (st : HStore) {r r' : Nat} (h : Header)
    (hne : r ≠ r') : (st.write r h).read r' = st.read r' := by
  simp [HStore.write, HStore.read, List.getElem?_set_ne hne]

theorem HStore.read_write_self (st : HStore) {r : Nat} (h : Header)
    (hr : r < st.maps.length) : (st.write r h).read r = h := by
  simp [HStore.write, HStore.read, List.getElem?_set_self hr]

theorem HStore.length_write (st : HStore) (r : Nat) (h : Header) :
    (st.write r h).maps.length = st.maps.length := by
  simp [HStore.write]

theorem HStore.read_allocMap_self (st : HStore) (h : Header) :
    (st.allocMap h).1.read (st.allocMap h).2 = h := by
  simp [HStore.allocMap, HStore.read]

theorem HStore.read_allocMap_old (st : HStore) (h : Header) {r : Nat}
    (hr : r < st.maps.length) : (st.allocMap h).1.read r = st.read r := by
  simp [HStore.allocMap, HStore.read, List.getElem?_append_left hr]

theorem HStore.length_allocMap (st : HStore) (h : Header) :
    (st.allocMap h).1.maps.length = st.maps.length + 1 := by
  simp [HStore.allocMap]

/-! ## Claim C7 -/

/-- Claim C7: for every method, URL, referer and body, `buildRequest` produces
a request whose header map is a fresh copy — a different reference than the
session's default headers, which are left untouched — with `User-Agent` set
from the session's user agent, with `Referer` set to the supplied referer's
string form when `SendReferer` is on and a referer was supplied, and with the
`Referer` entry exactly as in the defaults (hence absent when the defaults
carry none) otherwise. -/
theorem C7_buildRequest_copies_headers
    (st : HStore) (bow : BuilderSession) (method u : String) (ref : Option String)
    (hv : bow.headers < st.maps.length) :
    ((buildRequest st bow method u ref).2.header ≠ bow.headers) ∧
    ((buildRequest st bow method u ref).1.read bow.headers = st.read bow.headers) ∧
    (hGet ((buildRequest st bow method u ref).1.read
        (buildRequest st bow method u ref).2.header) "User-Agent" = bow.userAgent) ∧
    (∀ rf, ref = some rf → bow.sendReferer = true →
       hGet ((buildRequest st bow method u ref).1.read
         (buildRequest st bow method u ref).2.header) "Referer" = rf) ∧
    ((bow.sendReferer = false ∨ ref = none) →
       hGet ((buildRequest st bow method u ref).1.read
         (buildRequest st bow method u ref).2.header) "Referer"
         = hGet (st.read bow.headers) "Referer") := by
  have hne : bow.headers ≠ st.maps.length := by omega
  have hne' : st.maps.length ≠ bow.headers := by omega
  have hself : (st.allocMap (st.read bow.headers)).1.read st.maps.length
      = st.read bow.headers := HStore.read_allocMap_self st _
  have hr2lt : st.maps.length < (st.allocMap (st.read bow.headers)).1.maps.length := by
    rw [HStore.length_allocMap]
    omega
  rcases ref with _ | rf
  · by_cases hsr : bow.sendReferer
    · have hb : buildRequest st bow method u none =
          ((st.allocMap (st.read bow.headers)).1.write st.maps.length
             (hSet ((st.allocMap (st.read bow.headers)).1.read st.maps.length)
               "User-Agent" bow.userAgent),
           { method := method, url := u
             host := hGet ((st.allocMap (st.read bow.headers)).1.read
               st.maps.length) "Host"
             header := st.maps.length }) := by
        simp [buildRequest, copyHeaders, hsr, HStore.allocMap]
      rw [hb]
      refine ⟨hne', ?_, ?_, ?_, ?_⟩
      · rw [HStore.read_write_ne _ _ hne', HStore.read_allocMap_old _ _ hv]
      · rw [HStore.read_write_self _ _ hr2lt, hself, hGet_hSet]
      · intro rf hrf
        exact absurd hrf (by simp)
      · intro _
        rw [HStore.read_write_self _ _ hr2lt, hself,
          hGet_hSet_ne _ _ _ _ (by decide)]
    · have hb : buildRequest st bow method u none =
          ((st.allocMap (st.read bow.headers)).1.write st.maps.length
             (hSet ((st.allocMap (st.read bow.headers)).1.read st.maps.length)
               "User-Agent" bow.userAgent),
           { method := method, url := u
             host := hGet ((st.allocMap (st.read bow.headers)).1.read
               st.maps.length) "Host"
             header := st.maps.length }) := by
        simp [buildRequest, copyHeaders, hsr, HStore.allocMap]
      rw [hb]
      refine ⟨hne', ?_, ?_, ?_, ?_⟩
      · rw [HStore.read_write_ne _ _ hne', HStore.read_allocMap_old _ _ hv]
      · rw [HStore.read_write_self _ _ hr2lt, hself, hGet_hSet]
      · intro rf hrf
        exact absurd hrf (by simp)
      · intro _
        rw [HStore.read_write_self _ _ hr2lt, hself,
          hGet_hSet_ne _ _ _ _ (by decide)]
  · by_cases hsr : bow.sendReferer
    · have hb : buildRequest st bow method u (some rf) =
          (((st.allocMap (st.read bow.headers)).1.write st.maps.length
              (hSet ((st.allocMap (st.read bow.headers)).1.read st.maps.length)
                "User-Agent" bow.userAgent)).write st.maps.length
             (hSet (((st.allocMap (st.read bow.headers)).1.write st.maps.length
                 (hSet ((st.allocMap (st.read bow.headers)).1.read st.maps.length)
                   "User-Agent" bow.userAgent)).read st.maps.length)
               "Referer" rf),
           { method := method, url := u
             host := hGet ((st.allocMap (st.read bow.headers)).1.read
               st.maps.length) "Host"
             header := st.maps.length }) := by
        simp [buildRequest, copyHeaders, hsr, HStore.allocMap]
      rw [hb]
      have hr2lt' : st.maps.length <
          ((st.allocMap (st.read bow.headers)).1.write st.maps.length
            (hSet ((st.allocMap (st.read bow.headers)).1.read st.maps.length)
              "User-Agent" bow.userAgent)).maps.length := by
        rw [HStore.length_write, HStore.length_allocMap]
        omega
      have hmid : ((st.allocMap (st.read bow.headers)).1.write st.maps.length
            (hSet ((st.allocMap (st.read bow.headers)).1.read st.maps.length)
              "User-Agent" bow.userAgent)).read st.maps.length
          = hSet (st.read bow.headers) "User-Agent" bow.userAgent := by
        rw [HStore.read_write_self _ _ hr2lt, hself]
      refine ⟨hne', ?_, ?_, ?_, ?_⟩
      · rw [HStore.read_write_ne _ _ hne', HStore.read_write_ne _ _ hne',
          HStore.read_allocMap_old _ _ hv]
      · rw [HStore.read_write_self _ _ hr2lt', hmid,
          hGet_hSet_ne _ _ _ _ (by decide), hGet_hSet]
      · intro rf' hrf _
        cases hrf
        rw [HStore.read_write_self _ _ hr2lt', hmid, hGet_hSet]
      · intro hcond
        rcases hcond with hf | hn
        · rw [hsr] at hf
          cases hf
        · cases hn
    · have hb : buildRequest st bow method u (some rf) =
          ((st.allocMap (st.read bow.headers)).1.write st.maps.length
             (hSet ((st.allocMap (st.read bow.headers)).1.read st.maps.length)
               "User-Agent" bow.userAgent),
           { method := method, url := u
             host := hGet ((st.allocMap (st.read bow.headers)).1.read
               st.maps.length) "Host"
             header := st.maps.length }) := by
        simp [buildRequest, copyHeaders, hsr, HStore.allocMap]
      rw [hb]
      refine ⟨hne', ?_, ?_, ?_, ?_⟩
      · rw [HStore.read_write_ne _ _ hne', HStore.read_allocMap_old _ _ hv]
      · rw [HStore.read_write_self _ _ hr2lt, hself, hGet_hSet]
      · intro rf' _ hcontra
        exact absurd hcontra hsr
      · intro _
        rw [HStore.read_write_self _ _ hr2lt, hself,
          hGet_hSet_ne _ _ _ _ (by decide)]

/-- Witness for C7: a concrete store and session with a referer supplied. -/
theorem C7_buildRequest_copies_headers_witness :
    ((buildRequest store0 bs0 "GET" "http://x/" (some "http://r/")).2.header ≠
      bs0.headers) ∧
    hGet ((buildRequest store0 bs0 "GET" "http://x/" (some "http://r/")).1.read
      (buildRequest store0 bs0 "GET" "http://x/" (some "http://r/")).2.header)
      "User-Agent" = "UA7" ∧
    hGet ((buildRequest store0 bs0 "GET" "http://x/" (some "http://r/")).1.read
      (buildRequest store0 bs0 "GET" "http://x/" (some "http://r/")).2.header)
      "Referer" = "http://r/" :=
  ⟨(C7_buildRequest_copies_headers store0 bs0 "GET" "http://x/"
      (some "http://r/") (by decide)).1,
   (C7_buildRequest_copies_headers store0 bs0 "GET" "http://x/"
      (some "http://r/") (by decide)).2.2.1,
   (C7_buildRequest_copies_headers store0 bs0 "GET" "http://x/"
      (some "http://r/") (by decide)).2.2.2.1 "http://r/" rfl rfl⟩

/-! ## Path normalisation lemmas (for claim C9) -/

theorem splitOnP_pieces {α : Type} (p : α → Bool) (xs : List α) :
    ∀ l ∈ xs.splitOnP p, ∀ a ∈ l, ¬ p a = true := by
  induction xs with
  | nil =>
    intro l hl a ha
    simp [List.splitOnP_nil] at hl
    subst hl
    simp at ha
  | cons x t ih =>
    intro l hl a ha
    rw [List.splitOnP_cons] at hl
    by_cases hx : p x = true
    · rw [if_pos hx] at hl
      rcases List.mem_cons.mp hl with h | h
      · subst h
        simp at ha
      · exact ih l h a ha
    · rw [if_neg hx] at hl
      rcases hsp : t.splitOnP p with _ | ⟨hd, tl⟩
      · exact absurd hsp (List.splitOnP_ne_nil p t)
      · rw [hsp] at hl
        simp only [List.modifyHead] at hl
        rcases List.mem_cons.mp hl with h | h
        · subst h
          rcases List.mem_cons.mp ha with h' | h'
          · subst h'
            exact hx
          · exact ih hd (by rw [hsp]; exact List.mem_cons_self hd tl) a h'
        · exact ih l (by rw [hsp]; exact List.mem_cons_of_mem hd h) a ha

theorem splitOn_sep_not_mem {α : Type} [DecidableEq α] (x : α) (xs : List α) :
    ∀ l ∈ xs.splitOn x, x ∉ l := by
  intro l hl hmem
  have h := splitOnP_pieces (fun a => a == x) xs l
    (by simpa [List.splitOn] using hl) x hmem
  simp at h

theorem splitOn_ne_nil {α : Type} [DecidableEq α] (x : α) (xs : List α) :
    xs.splitOn x ≠ [] := by
  simp [List.splitOn, List.splitOnP_ne_nil]

theorem splitOn_cons_self {α : Type} [DecidableEq α] (x : α) (l : List α) :
    (x :: l).splitOn x = [] :: l.splitOn x := by
  simp [List.splitOn, List.splitOnP_cons]

theorem foldl_segStep_nodot (src : List (List Char)) (acc : List (List Char))
    (hacc : ∀ e ∈ acc, e ≠ ['.'] ∧ e ≠ ['.', '.'])
    {e : List Char} (he : e ∈ src.foldl segStep acc) :
    e ≠ ['.'] ∧ e ≠ ['.', '.'] := by
  induction src generalizing acc with
  | nil => exact hacc e he
  | cons a t ih =>
    refine ih (segStep acc a) ?_ he
    intro e' he'
    unfold segStep at he'
    by_cases h1 : a = ['.']
    · rw [if_pos h1] at he'
      exact hacc e' he'
    · rw [if_neg h1] at he'
      by_cases h2 : a = ['.', '.']
      · rw [if_pos h2] at he'
        exact hacc e' (List.dropLast_subset _ he')
      · rw [if_neg h2] at he'
        rcases List.mem_append.mp he' with hh | hh
        · exact hacc e' hh
        · rw [List.mem_singleton.mp hh]
          exact ⟨h1, h2⟩

theorem foldl_segStep_keep (P : List Char → Prop) (src : List (List Char)) :
    ∀ acc, (∀ e ∈ src, P e) → (∀ e ∈ acc, P e) →
      ∀ e ∈ src.foldl segStep acc, P e := by
  induction src with
  | nil =>
    intro acc _ hacc e he
    exact hacc e he
  | cons a t ih =>
    intro acc hsrc hacc e he
    refine ih (segStep acc a)
      (fun x hx => hsrc x (List.mem_cons_of_mem a hx)) ?_ e he
    intro e' he'
    unfold segStep at he'
    by_cases h1 : a = ['.']
    · rw [if_pos h1] at he'
      exact hacc e' he'
    · rw [if_neg h1] at he'
      by_cases h2 : a = ['.', '.']
      · rw [if_pos h2] at he'
        exact hacc e' (List.dropLast_subset _ he')
      · rw [if_neg h2] at he'
        rcases List.mem_append.mp he' with hh | hh
        · exact hacc e' hh
        · rw [List.mem_singleton.mp hh]
          exact hsrc a (List.mem_cons_self a t)

theorem foldl_segStep_eq_append (src acc : List (List Char))
    (hsrc : ∀ e ∈ src, e ≠ ['.'] ∧ e ≠ ['.', '.']) :
    src.foldl segStep acc = acc ++ src := by
  induction src generalizing acc with
  | nil => simp
  | cons a t ih =>
    have ha := hsrc a (List.mem_cons_self a t)
    have hstep : segStep acc a = acc ++ [a] := by
      unfold segStep
      rw [if_neg ha.1, if_neg ha.2]
    rw [List.foldl_cons, hstep,
      ih (acc ++ [a]) (fun e he => hsrc e (List.mem_cons_of_mem a he))]
    simp

theorem cleanSegs_nodot (src : List (List Char)) :
    ∀ e ∈ cleanSegs src, e ≠ ['.'] ∧ e ≠ ['.', '.'] := by
  intro e he
  unfold cleanSegs at he
  simp only at he
  by_cases hc : src.getLast? = some ['.'] ∨ src.getLast? = some ['.', '.']
  · rw [if_pos hc] at he
    rcases List.mem_append.mp he with hh | hh
    · exact foldl_segStep_nodot src [] (by simp) hh
    · rw [List.mem_singleton.mp hh]
      exact ⟨by decide, by decide⟩
  · rw [if_neg hc] at he
    exact foldl_segStep_nodot src [] (by simp) he

theorem cleanSegs_noslash (src : List (List Char))
    (hsrc : ∀ e ∈ src, ('/' : Char) ∉ e) :
    ∀ e ∈ cleanSegs src, ('/' : Char) ∉ e := by
  intro e he
  unfold cleanSegs at he
  simp only at he
  by_cases hc : src.getLast? = some ['.'] ∨ src.getLast? = some ['.', '.']
  · rw [if_pos hc] at he
    rcases List.mem_append.mp he with hh | hh
    · exact foldl_segStep_keep (fun y => ('/' : Char) ∉ y) src [] hsrc (by simp) e hh
    · rw [List.mem_singleton.mp hh]
      simp
  · rw [if_neg hc] at he
    exact foldl_segStep_keep (fun y => ('/' : Char) ∉ y) src [] hsrc (by simp) e he

theorem cleanSegs_ne_nil (src : List (List Char)) (h : src ≠ []) :
    cleanSegs src ≠ [] := by
  unfold cleanSegs
  simp only
  by_cases hc : src.getLast? = some ['.'] ∨ src.getLast? = some ['.', '.']
  · rw [if_pos hc]
    exact List.append_ne_nil_of_right_ne_nil _ (by simp)
  · rw [if_neg hc]
    rcases hgl : src.getLast? with _ | e0
    · exact absurd (List.getLast?_eq_none_iff.mp hgl) h
    · have he0 : src.dropLast ++ [e0] = src :=
        List.dropLast_append_getLast? e0 (Option.mem_def.mpr hgl)
      rw [← he0, List.foldl_append]
      have h0 : e0 ≠ ['.'] := fun hcon => hc (Or.inl (by rw [hgl, hcon]))
      have h1 : e0 ≠ ['.', '.'] := fun hcon => hc (Or.inr (by rw [hgl, hcon]))
      show segStep _ e0 ≠ []
      unfold segStep
      rw [if_neg h0, if_neg h1]
      exact List.append_ne_nil_of_right_ne_nil _ (by simp)

theorem cleanSegs_eq_self (src : List (List Char))
    (hsrc : ∀ e ∈ src, e ≠ ['.'] ∧ e ≠ ['.', '.']) :
    cleanSegs src = src := by
  unfold cleanSegs
  have hc : ¬(src.getLast? = some ['.'] ∨ src.getLast? = some ['.', '.']) := by
    rintro (hl | hl)
    · exact (hsrc _ (List.mem_of_mem_getLast? (Option.mem_def.mpr hl))).1 rfl
    · exact (hsrc _ (List.mem_of_mem_getLast? (Option.mem_def.mpr hl))).2 rfl
  simp only
  rw [if_neg hc, foldl_segStep_eq_append src [] hsrc]
  simp

theorem cleanPath_nil : cleanPath [] = [] := rfl

theorem cleanPath_ne_nil (full : List Char) (h : full ≠ []) :
    cleanPath full ≠ [] := by
  unfold cleanPath
  rw [if_neg h]
  simp

theorem cleanPath_head (full : List Char) (h : full ≠ []) :
    (cleanPath full).head? = some '/' := by
  unfold cleanPath
  rw [if_neg h]
  rfl

theorem cleanPath_norm (full : List Char) :
    ∀ e ∈ (cleanPath full).splitOn '/', e ≠ ['.'] ∧ e ≠ ['.', '.'] := by
  by_cases h : full = []
  · subst h
    intro e he
    simp [cleanPath, List.splitOn] at he
    subst he
    exact ⟨by decide, by decide⟩
  · intro e he
    unfold cleanPath at he
    rw [if_neg h] at he
    have hnodot := cleanSegs_nodot (full.splitOn '/')
    have hnoslash := cleanSegs_noslash (full.splitOn '/')
      (fun e' he' => splitOn_sep_not_mem '/' full e' he')
    have hne2 := cleanSegs_ne_nil (full.splitOn '/') (splitOn_ne_nil '/' full)
    have hsp : (List.intercalate ['/'] (cleanSegs (full.splitOn '/'))).splitOn '/'
        = cleanSegs (full.splitOn '/') :=
      List.splitOn_intercalate _ '/' hnoslash hne2
    rcases hj : List.intercalate ['/'] (cleanSegs (full.splitOn '/')) with _ | ⟨c, jt⟩
    · rw [hj] at he
      rw [show dropLeadSlash [] = [] from rfl, splitOn_cons_self] at he
      rcases List.mem_cons.mp he with hh | hh
      · subst hh
        exact ⟨by decide, by decide⟩
      · simp [List.splitOn] at hh
        subst hh
        exact ⟨by decide, by decide⟩
    · rw [hj] at he hsp
      by_cases hcc : c = '/'
      · subst hcc
        rw [show dropLeadSlash ('/' :: jt) = jt from by simp [dropLeadSlash]] at he
        rw [hsp] at he
        exact hnodot e he
      · rw [show dropLeadSlash (c :: jt) = c :: jt from by
            simp [dropLeadSlash, hcc]] at he
        rw [splitOn_cons_self] at he
        rcases List.mem_cons.mp he with hh | hh
        · subst hh
          exact ⟨by decide, by decide⟩
        · rw [hsp] at hh
          exact hnodot e hh

theorem cleanPath_fix (p : List Char) (hhead : p.head? = some '/')
    (hseg : ∀ e ∈ p.splitOn '/', e ≠ ['.'] ∧ e ≠ ['.', '.']) :
    cleanPath p = p := by
  obtain ⟨pt, rfl⟩ : ∃ pt, p = '/' :: pt := by
    cases p with
    | nil => simp at hhead
    | cons c t =>
      simp at hhead
      exact ⟨t, by rw [hhead]⟩
  unfold cleanPath
  rw [if_neg (by simp : ('/' :: pt : List Char) ≠ [])]
  rw [cleanSegs_eq_self _ hseg]
  rw [List.intercalate_splitOn]
  simp [dropLeadSlash]

theorem resolvePathL_nil (b : List Char) : resolvePathL b [] = cleanPath b := rfl

theorem resolvePathL_abs (b p : List Char) (hhead : p.head? = some '/') :
    resolvePathL b p = cleanPath p := by
  have hne : p ≠ [] := by
    intro h
    rw [h] at hhead
    simp at hhead
  unfold resolvePathL
  rw [if_neg hne, if_pos hhead]

theorem resolvePathL_ne_nil (b r : List Char) (hr : r ≠ []) :
    resolvePathL b r ≠ [] := by
  unfold resolvePathL
  rw [if_neg hr]
  by_cases hh : r.head? = some '/'
  · rw [if_pos hh]
    exact cleanPath_ne_nil r hr
  · rw [if_neg hh]
    apply cleanPath_ne_nil
    intro hcon
    exact hr (List.append_eq_nil.mp hcon).2

theorem resolvePath_segments (a b : String) :
    ∀ e ∈ (resolvePath a b).data.splitOn '/', e ≠ ['.'] ∧ e ≠ ['.', '.'] := by
  show ∀ e ∈ (resolvePathL a.data b.data).splitOn '/', _
  unfold resolvePathL
  exact cleanPath_norm _

theorem resolvePath_head (a b : String) (hne : resolvePath a b ≠ "") :
    (resolvePath a b).data.head? = some '/' := by
  have hd : resolvePathL a.data b.data ≠ [] := by
    intro hcon
    exact hne (congrArg String.mk hcon)
  show (resolvePathL a.data b.data).head? = some '/'
  unfold resolvePathL at hd ⊢
  by_cases hf : (if b.data = [] then a.data
      else if b.data.head? = some '/' then b.data
      else dirPart a.data ++ b.data) = []
  · rw [hf] at hd
    exact absurd cleanPath_nil hd
  · exact cleanPath_head _ hf

theorem resolvePath_empty_left : resolvePath "" "" = "" := rfl

theorem resolvePath_nil_empty_iff (b : String) :
    resolvePath b "" = "" ↔ b = "" := by
  constructor
  · intro h
    by_cases hb : b.data = []
    · exact String.ext hb
    · have h1 : resolvePathL b.data [] = [] := congrArg String.data h
      rw [resolvePathL_nil] at h1
      exact absurd h1 (cleanPath_ne_nil b.data hb)
  · intro h
    subst h
    rfl

theorem resolvePath_ne_empty (b r : String) (hr : r ≠ "") :
    resolvePath b r ≠ "" := by
  intro hcon
  apply resolvePathL_ne_nil b.data r.data
  · intro hd
    exact hr (String.ext hd)
  · exact congrArg String.data hcon

theorem resolvePath_idem_nil (a b : String) :
    resolvePath (resolvePath a b) "" = resolvePath a b := by
  apply String.ext
  show cleanPath ((resolvePath a b).data) = (resolvePath a b).data
  by_cases hne : resolvePath a b = ""
  · rw [hne]
    rfl
  · exact cleanPath_fix _ (resolvePath_head a b hne) (resolvePath_segments a b)

theorem resolvePath_absorb (c a b : String) (h : resolvePath a b ≠ "") :
    resolvePath c (resolvePath a b) = resolvePath a b := by
  apply String.ext
  have hh := resolvePath_head a b h
  show resolvePathL c.data (resolvePath a b).data = (resolvePath a b).data
  rw [resolvePathL_abs c.data _ hh]
  exact cleanPath_fix _ hh (resolvePath_segments a b)

/-- Fixpoint property of `ResolveReference`: a URL whose components already
carry the shape `ResolveReference` produces relative to `base` resolves to
itself. -/
theorem resolveReference_fix (base : URL) (rs ro : String) (ru : Option String)
    (rh rp rq rf : String)
    (hpath : rp = "" ∨ ∃ a b, rp = resolvePath a b)
    (hscheme : rs = "" → base.scheme = "")
    (hopq : rs = "" → rh = "" → ru = none → ro ≠ "" → rp = "")
    (hrel : rs = "" → rh = "" → ru = none → ro = "" →
        base.host = "" ∧ base.user = none ∧
        (rp = "" → base.path = "") ∧
        (rp = "" → rq = "" →
          base.rawQuery = "" ∧ (rf = "" → base.fragment = ""))) :
    resolveReference base ⟨rs, ro, ru, rh, rp, rq, rf⟩ =
      ⟨rs, ro, ru, rh, rp, rq, rf⟩ := by
  have hfixnil : resolvePath rp "" = rp := by
    rcases hpath with hp | ⟨a, b, hp⟩
    · rw [hp]
      rfl
    · rw [hp]
      exact resolvePath_idem_nil a b
  by_cases h1 : rs ≠ "" ∨ rh ≠ "" ∨ ru ≠ none
  · simp only [resolveReference]
    rw [if_pos h1, hfixnil]
    by_cases hs : rs = ""
    · simp [hs, hscheme hs]
    · simp [hs]
  · push_neg at h1
    obtain ⟨hs, hh, hu⟩ := h1
    subst hs
    subst hh
    subst hu
    have hbs := hscheme rfl
    by_cases h2 : ro ≠ ""
    · have hp0 := hopq rfl rfl rfl h2
      subst hp0
      simp [resolveReference, h2, hbs]
    · push_neg at h2
      subst h2
      obtain ⟨hbh, hbu, hbp, hbq⟩ := hrel rfl rfl rfl rfl
      by_cases h4 : rp = "" ∧ rq = ""
      · obtain ⟨hp4, hq4⟩ := h4
        subst hp4
        subst hq4
        obtain ⟨hqq, hff⟩ := hbq rfl rfl
        have hbp' := hbp rfl
        by_cases hfr : rf = ""
        · subst hfr
          simp [resolveReference, hbs, hbh, hbu, hbp', hqq, hff rfl,
            resolvePath_empty_left]
        · simp [resolveReference, hbs, hbh, hbu, hbp', hqq, hfr,
            resolvePath_empty_left]
      · have hpath' : resolvePath base.path rp = rp := by
          by_cases hrp : rp = ""
          · subst hrp
            rw [hbp rfl]
            rfl
          · rcases hpath with hp | ⟨a, b, hp⟩
            · exact absurd hp hrp
            · subst hp
              exact resolvePath_absorb base.path a b hrp
        simp [resolveReference, hbs, hbh, hbu, h4, hpath']

/-- The components of `resolveReference base u` satisfy the fixpoint shape of
`resolveReference_fix`. -/
theorem resolveReference_image (base u : URL) :
    ((resolveReference base u).path = "" ∨
      ∃ a b, (resolveReference base u).path = resolvePath a b) ∧
    ((resolveReference base u).scheme = "" → base.scheme = "") ∧
    ((resolveReference base u).scheme = "" → (resolveReference base u).host = "" →
      (resolveReference base u).user = none → (resolveReference base u).opq ≠ "" →
      (resolveReference base u).path = "") ∧
    ((resolveReference base u).scheme = "" → (resolveReference base u).host = "" →
      (resolveReference base u).user = none → (resolveReference base u).opq = "" →
      base.host = "" ∧ base.user = none ∧
      ((resolveReference base u).path = "" → base.path = "") ∧
      ((resolveReference base u).path = "" →
        (resolveReference base u).rawQuery = "" →
        base.rawQuery = "" ∧
        ((resolveReference base u).fragment = "" → base.fragment = ""))) := by
  by_cases h1 : u.scheme ≠ "" ∨ u.host ≠ "" ∨ u.user ≠ none
  · have hR : resolveReference base u =
        ⟨(if u.scheme = "" then base.scheme else u.scheme), u.opq, u.user,
          u.host, resolvePath u.path "", u.rawQuery, u.fragment⟩ := by
      simp only [resolveReference]
      rw [if_pos h1]
      by_cases hs : u.scheme = "" <;> simp [hs]
    rw [hR]
    dsimp only
    have hcontra : ∀ (_ : (if u.scheme = "" then base.scheme else u.scheme) = "")
        (_ : u.host = "") (_ : u.user = none), False := by
      intro hsch hhost huser
      rcases h1 with h | h | h
      · by_cases hs : u.scheme = ""
        · exact h hs
        · rw [if_neg hs] at hsch
          exact h hsch
      · exact h hhost
      · exact h huser
    refine ⟨Or.inr ⟨u.path, "", rfl⟩, ?_, ?_, ?_⟩
    · intro hsch
      by_cases hs : u.scheme = ""
      · rw [if_pos hs] at hsch
        exact hsch
      · rw [if_neg hs] at hsch
        exact absurd hsch hs
    · intro a b c _
      exact (hcontra a b c).elim
    · intro a b c _
      exact (hcontra a b c).elim
  · push_neg at h1
    obtain ⟨hs, hh, hu⟩ := h1
    by_cases h2 : u.opq ≠ ""
    · have hR : resolveReference base u =
          ⟨base.scheme, u.opq, none, "", "", u.rawQuery, u.fragment⟩ := by
        simp [resolveReference, hs, hh, hu, h2]
      rw [hR]
      dsimp only
      refine ⟨Or.inl rfl, fun h => h, fun _ _ _ _ => rfl, ?_⟩
      intro _ _ _ ho
      exact absurd ho h2
    · push_neg at h2
      by_cases h4 : u.path = "" ∧ u.rawQuery = ""
      · by_cases hf : u.fragment = ""
        · have hR : resolveReference base u =
              ⟨base.scheme, u.opq, base.user, base.host,
                resolvePath base.path u.path, base.rawQuery, base.fragment⟩ := by
            simp [resolveReference, hs, hh, hu, h2, h4, hf]
          rw [hR]
          dsimp only
          refine ⟨Or.inr ⟨base.path, u.path, rfl⟩, fun h => h, ?_, ?_⟩
          · intro _ _ _ ho
            exact absurd h2 ho
          · intro _ hhost huser _
            refine ⟨hhost, huser, ?_, ?_⟩
            · intro hp
              rw [h4.1] at hp
              exact (resolvePath_nil_empty_iff base.path).mp hp
            · intro _ hq
              exact ⟨hq, fun hfr => hfr⟩
        · have hR : resolveReference base u =
              ⟨base.scheme, u.opq, base.user, base.host,
                resolvePath base.path u.path, base.rawQuery, u.fragment⟩ := by
            simp [resolveReference, hs, hh, hu, h2, h4, hf]
          rw [hR]
          dsimp only
          refine ⟨Or.inr ⟨base.path, u.path, rfl⟩, fun h => h, ?_, ?_⟩
          · intro _ _ _ ho
            exact absurd h2 ho
          · intro _ hhost huser _
            refine ⟨hhost, huser, ?_, ?_⟩
            · intro hp
              rw [h4.1] at hp
              exact (resolvePath_nil_empty_iff base.path).mp hp
            · intro _ hfr
              exact ⟨hfr, fun hcon => absurd hcon hf⟩
      · have hR : resolveReference base u =
            ⟨base.scheme, u.opq, base.user, base.host,
              resolvePath base.path u.path, u.rawQuery, u.fragment⟩ := by
          simp [resolveReference, hs, hh, hu, h2, h4]
        rw [hR]
        dsimp only
        refine ⟨Or.inr ⟨base.path, u.path, rfl⟩, fun h => h, ?_, ?_⟩
        · intro _ _ _ ho
          exact absurd h2 ho
        · intro _ hhost huser _
          refine ⟨hhost, huser, ?_, ?_⟩
          · intro hp
            by_cases hup : u.path = ""
            · rw [hup] at hp
              exact (resolvePath_nil_empty_iff base.path).mp hp
            · exact absurd hp (resolvePath_ne_empty base.path u.path hup)
          · intro hp hq
            by_cases hup : u.path = ""
            · exact (h4 ⟨hup, hq⟩).elim
            · exact (resolvePath_ne_empty base.path u.path hup hp).elim

/-- `ResolveReference` against a fixed base is idempotent. -/
theorem resolveReference_idem (base u : URL) :
    resolveReference base (resolveReference base u) = resolveReference base u := by
  obtain ⟨c1, c2, c3, c4⟩ := resolveReference_image base u
  exact resolveReference_fix base (resolveReference base u).scheme
    (resolveReference base u).opq (resolveReference base u).user
    (resolveReference base u).host (resolveReference base u).path
    (resolveReference base u).rawQuery (resolveReference base u).fragment
    c1 c2 c3 c4

/-! ## Claim C9 -/

/-- Claim C9: URL resolution against the session's current URL is idempotent —
resolving a URL and then resolving the result again against the same current
URL returns the result unchanged (`ResolveUrl (ResolveUrl u) = ResolveUrl u`). -/
theorem C9_ResolveUrl_idempotent (bow : Browser) (u r : URL)
    (h : ResolveUrl bow u = some r) :
    ResolveUrl bow r = some r := by
  unfold ResolveUrl at h ⊢
  rcases hb : Url bow with _ | base
  · rw [hb] at h
    simp at h
  · rw [hb] at h
    simp only [Option.map_some'] at h ⊢
    have hr : resolveReference base u = r := by simpa using h
    rw [← hr, resolveReference_idem]

/-- Witness for C9 on the loaded session `bowLoaded` and the relative URL
`uRel`. -/
theorem C9_ResolveUrl_idempotent_witness :
    ResolveUrl bowLoaded (resolveReference url0 uRel) =
      some (resolveReference url0 uRel) :=
  C9_ResolveUrl_idempotent bowLoaded uRel (resolveReference url0 uRel) rfl


/-- Claim C2 counterexample: the claim fails on both cited `httpRequest`
implementations.  In part_000, a response with `Content-Encoding: br` (a
non-identity value other than gzip/deflate) does not fail with an
UnsupportedEncoding error — the switch's `default` arm reads the body raw and
the navigation succeeds with the undecoded bytes.  In
`src/browser/browser.go`, even a `Content-Encoding: gzip` response is not
decompressed: the raw wire bytes `[31, 139, 8]` are read and parsed, not the
decoder's output. -/
theorem C2_counterexample :
    ((httpRequest envBr bow0 req0).2 = none ∧
     (httpRequest envBr bow0 req0).1.body = [7]) ∧
    ((BrowserGo.httpRequest envGz true bow0 req0).2 = none ∧
     (BrowserGo.httpRequest envGz true bow0 req0).1.body = [31, 139, 8]) :=
  ⟨⟨rfl, rfl⟩, ⟨rfl, rfl⟩⟩

/-- Claim C2 (amended): in the value-receiver variant (src/unnamed/part_000),
on a successful navigation whose response carries `Content-Encoding: gzip` or
`deflate` the body is decompressed before document parsing — the parsed
document is the parse of the decoder's output; a response whose
`Content-Encoding` is any other value, identity or unknown, is passed through
undecoded and the navigation does not fail with an UnsupportedEncoding error.
The pointer-receiver variant (src/browser/browser.go) performs no
Content-Encoding handling at all: it reads and parses the raw body bytes
regardless of the header, and its result does not depend on the decoders. -/
theorem C2_content_encoding_decoding
    (env : Env) (bow : Browser) (req : Request) (resp : Response)
    (h : env.doResult = .ok resp) :
    (hGet resp.header "Content-Encoding" = "gzip" →
      ∀ b dom, env.gunzipNew resp.body = none →
        env.gunzipRead resp.body = (b, none) → env.parse b = .ok dom →
        (httpRequest env bow req).2 = none ∧
        (httpRequest env bow req).1.body = b ∧
        Dom (httpRequest env bow req).1 = some dom) ∧
    (hGet resp.header "Content-Encoding" = "deflate" →
      ∀ b dom, env.inflateRead resp.body = (b, none) → env.parse b = .ok dom →
        (httpRequest env bow req).2 = none ∧
        (httpRequest env bow req).1.body = b ∧
        Dom (httpRequest env bow req).1 = some dom) ∧
    (hGet resp.header "Content-Encoding" ≠ "gzip" →
     hGet resp.header "Content-Encoding" ≠ "deflate" →
      ∀ b dom, env.plainRead resp.body = (b, none) → env.parse b = .ok dom →
        (httpRequest env bow req).2 = none ∧
        (httpRequest env bow req).1.body = b ∧
        Dom (httpRequest env bow req).1 = some dom) ∧
    (∀ b dom, env.plainRead resp.body = (b, none) → env.parse b = .ok dom →
        (BrowserGo.httpRequest env true bow req).2 = none ∧
        (BrowserGo.httpRequest env true bow req).1.body = b ∧
        Dom (BrowserGo.httpRequest env true bow req).1 = some dom) ∧
    (∀ (env' : Env) (hb : Bool) (bow' : Browser) (req' : Request),
        env'.doResult = env.doResult → env'.plainRead = env.plainRead →
        env'.parse = env.parse →
        BrowserGo.httpRequest env' hb bow' req' =
          BrowserGo.httpRequest env hb bow' req') := by
  refine ⟨?_, ?_, ?_, ?_, ?_⟩
  · intro henc b dom hnew hread hp
    simp [httpRequest, preSend, postSend, readBody, h, henc, hnew, hread, hp,
      Dom, NewHistoryState]
  · intro henc b dom hread hp
    simp [httpRequest, preSend, postSend, readBody, h, henc, hread, hp,
      Dom, NewHistoryState]
  · intro hg hd b dom hread hp
    simp [httpRequest, preSend, postSend, readBody, h, hg, hd, hread, hp,
      Dom, NewHistoryState]
  · intro b dom hread hp
    simp [BrowserGo.httpRequest, preSend, postSend, h, hread, hp,
      Dom, NewHistoryState]
  · intro env' hb bow' req' h1 h2 h3
    unfold BrowserGo.httpRequest
    rw [h1, h2, h3]

/-- Witness for C2 (amended): part_000 parses the gzip decoder's output
`[104, 105]` for `respGz`, while the browser.go variant parses the raw wire
bytes `[31, 139, 8]` of the same response. -/
theorem C2_content_encoding_decoding_witness :
    ((httpRequest envGz bow0 req0).2 = none ∧
     (httpRequest envGz bow0 req0).1.body = [104, 105]) ∧
    ((BrowserGo.httpRequest envGz true bow0 req0).2 = none ∧
     (BrowserGo.httpRequest envGz true bow0 req0).1.body = [31, 139, 8]) :=
  ⟨⟨((C2_content_encoding_decoding envGz bow0 req0 respGz rfl).1 rfl
      [104, 105] ⟨[104, 105]⟩ rfl rfl rfl).1,
    ((C2_content_encoding_decoding envGz bow0 req0 respGz rfl).1 rfl
      [104, 105] ⟨[104, 105]⟩ rfl rfl rfl).2.1⟩,
   ⟨((C2_content_encoding_decoding envGz bow0 req0 respGz rfl).2.2.2.1
      [31, 139, 8] ⟨[31, 139, 8]⟩ rfl rfl).1,
    ((C2_content_encoding_decoding envGz bow0 req0 respGz rfl).2.2.2.1
      [31, 139, 8] ⟨[31, 139, 8]⟩ rfl rfl).2.1⟩⟩

/-- Witness for C10: the element `elCss` has `media` present but empty and
`type` absent; its stylesheet keeps the empty media (not "all") and receives
the "text/css" default. -/
theorem C10_defaults_only_when_absent_witness :
    attrOrDefault "media" "all" elCss = "" ∧
    attrOrDefault "type" "text/css" elCss = "text/css" ∧
    Stylesheets [elCss] (fun x => some x) =
      [NewStylesheetAsset "x.css" "" "" "text/css"] :=
  ⟨(C10_defaults_only_when_absent elCss "media" "all").1 "" rfl,
   (C10_defaults_only_when_absent elCss "type" "text/css").2.1 rfl,
   (C10_defaults_only_when_absent elCss "x" "y").2.2 (fun x => some x) "x.css" "x.css"
     rfl rfl rfl⟩

end Surf
